import Mathlib

/-!
Verification of the streaming process orchestrator of ClaudeLink (`src/bot.py`).

The development shallowly embeds the pieces of `bot.py` that the claims are
about:

* decoded JSON values (`JVal`) standing for the Python objects produced by
  `json.loads`; the Python singleton `None` is identified with `JVal.nul`
  (a decoded JSON `null` and the reader's sentinel are the very same Python
  object, so the embedding identifies them too);
* `_read_stdout` (the reader thread) as a pure function from a list of
  abstract read results to the list of values put on the queue;
* the dispatch loop of `stream_claude` as a step function over an explicit
  state, driven by a trace of loop iterations (each iteration records the
  clock value observed at the top of the loop, the outcome of the bounded
  queue pull, and the clock value observed at the throttle check);
* `_send_written_files` as a pure function from an abstract file system to
  the list of outbound Telegram send actions.

Machine integers do not occur (sizes, times and exit codes are unbounded in
Python); clock readings are modelled as naturals.  Modelled divergences from
CPython are noted at the definitions concerned.
-/

mutual
/-- Decoded JSON value, as produced by `json.loads` in `bot.py`.  Numbers are
modelled as integers (no claim concerns floats).  `nul` stands for Python
`None`; note that `json.loads("null")` yields the same `None` object that the
reader uses as its end-of-stream sentinel.  An `obj` represents a Python dict,
so its keys are assumed distinct (as `json.loads` guarantees). -/
inductive JVal where
  | str (s : String)
  | num (n : Int)
  | bool (b : Bool)
  | nul
  | arr (l : JArr)
  | obj (l : JObj)
  deriving DecidableEq
inductive JArr where
  | nil
  | cons (v : JVal) (t : JArr)
  deriving DecidableEq
inductive JObj where
  | nil
  | cons (k : String) (v : JVal) (t : JObj)
  deriving DecidableEq
end

/-- Build a `JObj` from an association list (literal convenience). -/
def JObj.ofList : List (String × JVal) → JObj
  | [] => .nil
  | (k, v) :: t => .cons k v (JObj.ofList t)

/-- Build a `JArr` from a list (literal convenience). -/
def JArr.ofList : List JVal → JArr
  | [] => .nil
  | v :: t => .cons v (JArr.ofList t)

/-- View of a `JArr` as a list. -/
def JArr.toList : JArr → List JVal
  | .nil => []
  | .cons v t => v :: JArr.toList t

/-- Dict lookup on a `JObj`, first binding wins (keys are distinct). -/
def JObj.get? : JObj → String → Option JVal
  | .nil, _ => none
  | .cons k v t, key => if k = key then some v else JObj.get? t key

/-- Python `dict.get(key)` on a decoded value: `none` when the key is absent.
Divergence note: CPython raises `AttributeError` when `.get` is called on a
non-dict; every call site in `bot.py` that reaches a non-dict value either
guards with `isinstance` or would abort the whole invocation, and the claims
only concern dict-shaped events, so the embedding returns `none` instead. -/
def JVal.get? : JVal → String → Option JVal
  | .obj o, key => o.get? key
  | _, _ => none

/-- Is the value a Python dict? (`isinstance(x, dict)`). -/
def JVal.isObj : JVal → Bool
  | .obj _ => true
  | _ => false

/-- Python truthiness (`bool(x)`) of a decoded JSON value. -/
def JVal.truthy : JVal → Bool
  | .str s => s ≠ ""
  | .num n => n ≠ 0
  | .bool b => b
  | .nul => false
  | .arr .nil => false
  | .arr _ => true
  | .obj .nil => false
  | .obj _ => true

/-- Python `repr` of a string.  Escaping is modelled for backslash and the
quote character only (other CPython escapes, e.g. of control characters, do
not occur in any claim). -/
def pyStrRepr (s : String) : String :=
  "\x27" ++ ((s.replace "\\" "\\\\").replace "\x27" "\\\x27") ++ "\x27"

mutual
/-- Python `repr` of a decoded JSON value, used by f-string formatting of
containers. -/
def pyRepr : JVal → String
  | .str s => pyStrRepr s
  | .num n => toString n
  | .bool b => if b then "True" else "False"
  | .nul => "None"
  | .arr l => "[" ++ pyReprArr l ++ "]"
  | .obj o => "\x7b" ++ pyReprObj o ++ "\x7d"
/-- Python `repr` of a decoded JSON list, elements comma-joined. -/
def pyReprArr : JArr → String
  | .nil => ""
  | .cons v .nil => pyRepr v
  | .cons v t => pyRepr v ++ ", " ++ pyReprArr t
/-- Python `repr` of a decoded JSON object, entries comma-joined. -/
def pyReprObj : JObj → String
  | .nil => ""
  | .cons k v .nil => pyStrRepr k ++ ": " ++ pyRepr v
  | .cons k v t => pyStrRepr k ++ ": " ++ pyRepr v ++ ", " ++ pyReprObj t
end

/-- Python `str` (f-string formatting) of a decoded JSON value. -/
def pyStr : JVal → String
  | .str s => s
  | v => pyRepr v

-- Configuration constants of `bot.py` (module level).
def MSG_LIMIT : Nat := 4000
def STATUS_THROTTLE : Nat := 3
def IMAGE_EXTENSIONS : List String :=
  [".jpg", ".jpeg", ".png", ".gif", ".bmp", ".webp", ".tiff", ".svg"]

/-- Last `n` characters of a string (Python `s[-n:]` for `0 < n ≤ len s`). -/
def strTakeRight (s : String) (n : Nat) : String :=
  ⟨s.data.drop (s.length - n)⟩

/-- Embedding of `_short` (`bot.py` lines 40–43). -/
def shortDesc (s : String) (maxlen : Nat := 40) : String :=
  if s.length ≤ maxlen then s
  else "..." ++ strTakeRight s (maxlen - 3)

/-- Embedding of `_describe_tool` (`bot.py` lines 46–60).  The tool name is
the raw decoded value (`block.get("name", "?")`); a non-string name falls to
the generic `"Using ..."` case exactly as the Python dict lookup does.
Divergence note: where CPython would format a non-string input field, the
field is rendered with `pyStr` first; the observable output agrees except on
inputs where `_short` would raise in CPython (a non-string longer than the
truncation limit), which aborts the invocation and occurs in no claim. -/
def describeTool (name : JVal) (inp : JVal) : String :=
  match name with
  | .str "Read" => "Reading " ++ shortDesc (pyStr ((inp.get? "file_path").getD (.str "?")))
  | .str "Glob" => "Searching for " ++ pyStr ((inp.get? "pattern").getD (.str "files"))
  | .str "Grep" => "Searching code for \"" ++ pyStr ((inp.get? "pattern").getD (.str "...")) ++ "\""
  | .str "Bash" => "Running command"
  | .str "Write" => "Writing " ++ shortDesc (pyStr ((inp.get? "file_path").getD (.str "?")))
  | .str "Edit" => "Editing " ++ shortDesc (pyStr ((inp.get? "file_path").getD (.str "?")))
  | .str "WebSearch" => "Searching web for \"" ++ pyStr ((inp.get? "query").getD (.str "...")) ++ "\""
  | .str "WebFetch" => "Fetching " ++ shortDesc (pyStr ((inp.get? "url").getD (.str "?"))) 60
  | .str "Task" => "Running subtask"
  | other => "Using " ++ pyStr other

-- ----------------------------------------------------------------------
-- Event Stream Reader: `_read_stdout` (`bot.py` lines 111–128)
-- ----------------------------------------------------------------------

/-- One non-EOF line delivered by `proc.stdout.readline`, abstracted at the
decode boundary: after `decode("utf-8", errors="replace").strip()` the line
is blank, fails `json.loads`, or decodes to a value. -/
inductive RawLine where
  | blank
  | invalid (s : String)
  | valid (v : JVal)
  deriving DecidableEq

/-- One interaction of the reader with the pipe: a successful `readline`
(EOF is the end of the list) or an I/O error raised while reading. -/
inductive ReadStep where
  | line (l : RawLine)
  | ioError
  deriving DecidableEq

/-- Outcome of the reader body: the values put on the queue before the
`finally` block, the warnings logged for non-JSON lines (`line[:200]`), and
whether the body was aborted by an exception. -/
structure ReadOutcome where
  queued : List JVal
  warnings : List String
  errored : Bool
  deriving DecidableEq

/-- Embedding of the `try` body of `_read_stdout`: read lines until EOF,
skip blank lines, log and discard non-JSON lines, put decoded values on the
queue; an I/O error ends the body (caught by the `except` clause). -/
def readLoop : List ReadStep → ReadOutcome
  | [] => ⟨[], [], false⟩
  | .ioError :: _ => ⟨[], [], true⟩
  | .line .blank :: rest => readLoop rest
  | .line (.invalid s) :: rest =>
      let o := readLoop rest
      ⟨o.queued, s.take 200 :: o.warnings, o.errored⟩
  | .line (.valid v) :: rest =>
      let o := readLoop rest
      ⟨v :: o.queued, o.warnings, o.errored⟩

/-- Embedding of `_read_stdout`: the whole sequence of values put on the
queue.  The `finally` block appends the sentinel (`None`, i.e. `JVal.nul`)
exactly once, on EOF and on error alike; no exception escapes. -/
def readStdout (steps : List ReadStep) : List JVal :=
  (readLoop steps).queued ++ [JVal.nul]

/-- Specification-side view for the reader: the decoded values of the valid
lines that precede the first I/O error, in arrival order. -/
def validEvents (steps : List ReadStep) : List JVal :=
  (steps.takeWhile (· ≠ ReadStep.ioError)).filterMap fun s =>
    match s with
    | .line (.valid v) => some v
    | _ => none

/-- Specification-side view: the logged prefixes of the non-JSON lines that
precede the first I/O error, in arrival order. -/
def invalidLineLogs (steps : List ReadStep) : List String :=
  (steps.takeWhile (· ≠ ReadStep.ioError)).filterMap fun s =>
    match s with
    | .line (.invalid t) => some (t.take 200)
    | _ => none

-- ----------------------------------------------------------------------
-- Event Dispatcher: the loop of `stream_claude` (`bot.py` lines 179–264)
-- ----------------------------------------------------------------------

/-- Configuration of one invocation: `TIMEOUT` (seconds), `STATUS_THROTTLE`,
and the value of `time.monotonic()` recorded in `start` (line 185). -/
structure Config where
  timeout : Nat
  throttle : Nat
  start : Nat
  deriving DecidableEq

/-- Outcome of one bounded queue pull (lines 194–199): either the wait timed
out (`asyncio.TimeoutError` / `queue.Empty`), or an item was pulled.  The
sentinel is the pulled item `JVal.nul` (Python `None`). -/
inductive QOutcome where
  | qtimeout
  | item (v : JVal)
  deriving DecidableEq

/-- One iteration of the dispatch loop, as observed through the clock and the
queue: `tTop` is `time.monotonic()` at the top of the loop (line 188), and
`tCheck` is `time.monotonic()` at the throttle check reached in that
iteration (line 200 or 241). -/
structure Iter where
  tTop : Nat
  outcome : QOutcome
  tCheck : Nat
  deriving DecidableEq

/-- Mutable state of the dispatch loop (lines 179–183 plus the module-level
session globals).  `result_text` is the Python variable of the same name,
with `JVal.nul` standing for Python `None` (its initial value).  `saved`
records, in order, every value committed with `save_session`; `session_id`
is the module-level global.  `flushes` records every in-loop status edit as
the pair of the clock value at the flush and the rendered text. -/
structure DState where
  tool_log : List String
  written_files : List JVal
  result_text : JVal
  session_id : JVal
  saved : List JVal
  pending_update : Bool
  last_edit : Nat
  flushes : List (Nat × String)
  deriving DecidableEq

/-- Initial dispatch state (lines 179–183): empty logs, `result_text = None`,
`last_edit = 0.0`, no pending update; `sid0` is the module-level session
loaded by `load_session` (Python `None` or a string). -/
def initState (sid0 : JVal) : DState :=
  { tool_log := []
    written_files := []
    result_text := .nul
    session_id := sid0
    saved := []
    pending_update := false
    last_edit := 0
    flushes := [] }

/-- Text rendered by `_edit_status` (lines 131–139): the joined tool log, or
`"Working..."` when it is empty, keeping only the trailing `MSG_LIMIT`
characters when over the limit. -/
def renderStatus (tool_log : List String) : String :=
  let text := if tool_log = [] then "Working..." else String.intercalate "\n" tool_log
  if text.length > MSG_LIMIT then strTakeRight text MSG_LIMIT else text

/-- Throttled status edit (lines 200–203 and 241–244): flush when an update
is pending and at least `throttle` has elapsed since `last_edit`; a flush
records the rendered text, advances `last_edit`, and clears the pending
flag.  (Edit failures are swallowed by `_edit_status` and are invisible
here.) -/
def maybeFlush (cfg : Config) (st : DState) (now : Nat) : DState :=
  if st.pending_update ∧ now - st.last_edit ≥ cfg.throttle then
    { st with flushes := st.flushes ++ [(now, renderStatus st.tool_log)]
              last_edit := now
              pending_update := false }
  else st

/-- Does the event have `type == "result"` (line 210)? -/
def isResult (e : JVal) : Bool :=
  e.get? "type" = some (.str "result")

/-- Result-event branch (lines 210–217): record `event.get("result", "")` as
the final answer and, when the event carries a truthy `session_id`, commit it
to the session store.  Divergence note: CPython would raise in `save_session`
for a truthy non-string `session_id` on this unguarded branch; tokens are
strings in every claim. -/
def processResult (st : DState) (e : JVal) : DState :=
  let st := { st with result_text := (e.get? "result").getD (.str "") }
  match e.get? "session_id" with
  | some sid =>
      if sid.truthy then { st with session_id := sid, saved := st.saved ++ [sid] }
      else st
  | none => st

/-- One content block (lines 224–232): a dict block with `type == "tool_use"`
appends a tool description to the log and marks an update pending; when the
tool is named exactly `"Write"` and its input has a truthy `file_path`, that
path is appended to `written_files`. -/
def processBlock (st : DState) (b : JVal) : DState :=
  if b.isObj ∧ b.get? "type" = some (.str "tool_use") then
    let toolName := (b.get? "name").getD (.str "?")
    let toolInput := (b.get? "input").getD (.obj .nil)
    let st := { st with tool_log := st.tool_log ++ [describeTool toolName toolInput]
                        pending_update := true }
    match toolInput.get? "file_path" with
    | some fp =>
        if toolName = .str "Write" ∧ fp.truthy then
          { st with written_files := st.written_files ++ [fp] }
        else st
    | none => st
  else st

/-- Tool-use extraction (lines 220–232): `msg = event.get("message", event)`;
its `content`, when a list, is scanned block by block. -/
def processContent (st : DState) (e : JVal) : DState :=
  let msg := (e.get? "message").getD e
  let content := if msg.isObj then msg.get? "content" else none
  match content with
  | some (.arr blocks) => blocks.toList.foldl processBlock st
  | _ => st

/-- Non-result event branch (lines 220–238): extract tool uses, then commit a
truthy string `session_id` carried at top level (`if sid and
isinstance(sid, str)`). -/
def processOther (st : DState) (e : JVal) : DState :=
  let st := processContent st e
  match e.get? "session_id" with
  | some (.str s) =>
      if s ≠ "" then { st with session_id := .str s, saved := st.saved ++ [.str s] }
      else st
  | _ => st

/-- Result of the dispatch loop: the deadline fired (line 189), the sentinel
was pulled (line 207), or the supplied trace ended without either (the model
is partial in the trace length; a real run always ends in one of the first
two). -/
inductive LoopResult where
  | timedOut (st : DState)
  | completed (st : DState)
  | exhausted (st : DState)
  deriving DecidableEq

/-- State carried by a `LoopResult`. -/
def LoopResult.state : LoopResult → DState
  | .timedOut st => st
  | .completed st => st
  | .exhausted st => st

/-- The dispatch loop of `stream_claude` (lines 187–244), one constructor of
`Iter` per iteration.  Each iteration: check the deadline; on a queue-wait
timeout run the throttle check and continue; on pulling `None` exit; on a
result event run the result branch and continue (note: no throttle check, the
Python branch ends in `continue`); on any other event run the non-result
branch followed by the throttle check. -/
def runLoop (cfg : Config) (st : DState) : List Iter → LoopResult
  | [] => .exhausted st
  | it :: rest =>
    if it.tTop - cfg.start > cfg.timeout then .timedOut st
    else
      match it.outcome with
      | .qtimeout => runLoop cfg (maybeFlush cfg st it.tCheck) rest
      | .item v =>
        if v = .nul then .completed st
        else if isResult v then runLoop cfg (processResult st v) rest
        else runLoop cfg (maybeFlush cfg (processOther st v) it.tCheck) rest

/-- The queue items pulled by the loop before the sentinel (ignoring
queue-wait timeouts), i.e. the events the loop would dispatch if no deadline
fired. -/
def itemsUntilNul : List Iter → List JVal
  | [] => []
  | it :: rest =>
    match it.outcome with
    | .qtimeout => itemsUntilNul rest
    | .item v => if v = .nul then [] else v :: itemsUntilNul rest

/-- The fixed timeout advisory (line 191). -/
def timeoutMsg (cfg : Config) : String :=
  "Timed out after " ++ toString (cfg.timeout / 60) ++ "min. Try breaking it into smaller asks."

/-- Post-loop answer reconciliation (lines 257–264), given the process exit
code, the stripped stderr text, and the recorded `result_text` (where
`JVal.nul` is Python `None`, both the never-recorded case and a recorded
JSON `null`). -/
def finalAnswer (returncode : Int) (stderr : String) (result_text : JVal) : JVal :=
  if returncode ≠ 0 ∧ ¬ result_text.truthy then
    .str ("Error (exit " ++ toString returncode ++ "): " ++ stderr)
  else if result_text = .nul then
    .str (if stderr ≠ "" then stderr else "(no response)")
  else result_text

/-- Observable outcome of one `stream_claude` invocation: the returned text
(`answer`, a decoded value because `result_text` is returned as-is), the
returned written-file list, whether `proc.kill()` ran, the in-loop status
flushes, the final unthrottled flush (line 249–250) when one happened, and
the session-store commits. -/
structure RunResult where
  answer : JVal
  written : List JVal
  killed : Bool
  flushes : List (Nat × String)
  finalFlush : Option String
  saved : List JVal
  deriving DecidableEq

/-- Embedding of `stream_claude` around the loop: on deadline expiry kill the
process and return the advisory with the files collected so far (line
189–191, note: no final status flush on this path); on sentinel exit wait for
the process, flush once more if an update is pending, and reconcile the
answer from the exit code, stderr and `result_text` (lines 246–264).
`none` when the supplied trace is too short to decide the run. -/
def streamRun (cfg : Config) (st0 : DState) (trace : List Iter)
    (returncode : Int) (stderr : String) : Option RunResult :=
  match runLoop cfg st0 trace with
  | .timedOut st =>
      some { answer := .str (timeoutMsg cfg)
             written := st.written_files
             killed := true
             flushes := st.flushes
             finalFlush := none
             saved := st.saved }
  | .completed st =>
      some { answer := finalAnswer returncode stderr st.result_text
             written := st.written_files
             killed := false
             flushes := st.flushes
             finalFlush := if st.pending_update then some (renderStatus st.tool_log) else none
             saved := st.saved }
  | .exhausted _ => none

/-- Clock monotonicity of a trace: every observed time is at least `lo`, and
within each iteration the top-of-loop reading precedes the throttle-check
reading, which precedes the next iteration's readings. -/
def TraceMono : Nat → List Iter → Prop
  | _, [] => True
  | lo, it :: rest => lo ≤ it.tTop ∧ it.tTop ≤ it.tCheck ∧ TraceMono it.tCheck rest

-- ----------------------------------------------------------------------
-- Artifact Transfer: `_send_written_files` (`bot.py` lines 268–302)
-- ----------------------------------------------------------------------

/-- Split a character list at every `'/'` (kernel-reducible version of
`str.split("/")`). -/
def splitSlash : List Char → List (List Char)
  | [] => [[]]
  | c :: rest =>
    if c = '/' then [] :: splitSlash rest
    else
      match splitSlash rest with
      | [] => [[c]]
      | h :: t => (c :: h) :: t

/-- Components of a POSIX path string, as `str.split("/")` yields them. -/
def pathComponents (s : String) : List String :=
  (splitSlash s.data).map String.mk

/-- Lowercase a string character by character (as `str.lower()` does on
ASCII suffixes). -/
def lowerString (s : String) : String :=
  ⟨s.data.map Char.toLower⟩

/-- Lexical canonicalization of an absolute POSIX path, component by
component: empty and `"."` components vanish, `".."` pops (a no-op at the
root, as in `Path("/..").resolve()`).  `acc` holds the kept components in
reverse. -/
def resolveComponents (acc : List String) : List String → List String
  | [] => acc.reverse
  | c :: rest =>
    if c = "" ∨ c = "." then resolveComponents acc rest
    else if c = ".." then resolveComponents acc.tail rest
    else resolveComponents (c :: acc) rest

/-- Embedding of `Path(...).resolve()` on an absolute path.  Divergence
note: the model is lexical — symlinks are outside the modelled file system,
and a relative argument (which CPython would resolve against the process
working directory) occurs at no call site reached by the claims. -/
def resolvePath (s : String) : String :=
  "/" ++ String.intercalate "/" (resolveComponents [] (pathComponents s))

/-- Python `Path(raw).is_absolute()` on POSIX. -/
def isAbsolutePath (s : String) : Bool :=
  match s.data with
  | '/' :: _ => true
  | _ => false

/-- Canonical path of one reported file (lines 273–276): absolute paths are
kept, relative ones are joined under the (already resolved) workspace root;
the result is resolved. -/
def canonicalize (workspace raw : String) : String :=
  resolvePath (if isAbsolutePath raw then raw else workspace ++ "/" ++ raw)

/-- Last path component of a resolved path (`Path(p).name`; `""` for the
root). -/
def pathName (p : String) : String :=
  (pathComponents p).getLastD ""

/-- Index of the last `'.'` in a list of characters. -/
def lastDotIdx : List Char → Option Nat
  | [] => none
  | c :: rest =>
    match lastDotIdx rest with
    | some i => some (i + 1)
    | none => if c = '.' then some 0 else none

/-- Embedding of `PurePath.suffix` on a file name: the part from the last
dot, unless that dot is the first or the last character. -/
def pathSuffix (name : String) : String :=
  match lastDotIdx name.data with
  | some i => if 0 < i ∧ i < name.length - 1 then ⟨name.data.drop i⟩ else ""
  | none => ""

/-- Abstract file system: canonical path to size in bytes, `none` when the
path does not exist. -/
def FileSys := List (String × Nat)

/-- Size lookup in the abstract file system. -/
def FileSys.size? (fs : FileSys) (p : String) : Option Nat :=
  List.lookup p fs

/-- One outbound Telegram operation performed by `_send_written_files`. -/
inductive SendAction where
  | photo (path : String) (caption : String)
  | document (path : String) (filename : String)
  | message (text : String)
  deriving DecidableEq

/-- Canonical path a send action transfers, if it transfers a file. -/
def SendAction.target : SendAction → Option String
  | .photo p _ => some p
  | .document p _ => some p
  | .message _ => none

/-- Does the canonical path name an image for the size rule
(`p.suffix.lower() in IMAGE_EXTENSIONS`)? -/
def isImagePath (p : String) : Bool :=
  lowerString (pathSuffix (pathName p)) ∈ IMAGE_EXTENSIONS

/-- Body of the `for raw_path in written_files` loop (lines 272–302): resolve
the path, skip it when already seen, record it as seen, then skip missing and
empty files, and send by class with the per-class size bound — a too-large
file produces a notice message instead of a transfer.  Per-file send failures
are caught and logged in CPython (lines 301–302) and are invisible here: an
emitted action is an attempted send. -/
def sendFilesLoop (fs : FileSys) (workspace : String) (seen : List String) :
    List String → List SendAction
  | [] => []
  | raw :: rest =>
    let p := canonicalize workspace raw
    if p ∈ seen then sendFilesLoop fs workspace seen rest
    else
      let seen := p :: seen
      match fs.size? p with
      | none => sendFilesLoop fs workspace seen rest
      | some size =>
        if size = 0 then sendFilesLoop fs workspace seen rest
        else if isImagePath p then
          if size > 10 * 1024 * 1024 then
            .message ("Image too large for Telegram (>10MB): " ++ pathName p)
              :: sendFilesLoop fs workspace seen rest
          else .photo p (pathName p) :: sendFilesLoop fs workspace seen rest
        else if size > 50 * 1024 * 1024 then
          .message ("File too large for Telegram (>50MB): " ++ pathName p)
            :: sendFilesLoop fs workspace seen rest
        else .document p (pathName p) :: sendFilesLoop fs workspace seen rest

/-- Embedding of `_send_written_files` (lines 268–302): the workspace root is
resolved first (`Path(WORKSPACE).resolve()`, line 271), the seen-set starts
empty. -/
def sendWrittenFiles (fs : FileSys) (workspaceRaw : String)
    (written : List String) : List SendAction :=
  sendFilesLoop fs (resolvePath workspaceRaw) [] written


/-- Well-typed continuation tokens: every `session_id` the event carries is a
nonempty string, as the spec's data model stipulates for tokens.  (CPython
would abort `save_session` on a truthy non-string token, and silently skip a
falsy one.) -/
def sidOK (e : JVal) : Prop :=
  ∀ v, e.get? "session_id" = some v → ∃ s, v = JVal.str s ∧ s ≠ ""

/-- Specification-side view of the recorded final answer: the `"result"`
value (defaulting to `""`) of the last result-typed event, or `dflt` when no
result-typed event occurs. -/
def lastResultValue (events : List JVal) (dflt : JVal) : JVal :=
  match (events.filter (fun e => isResult e)).getLast? with
  | some e => (e.get? "result").getD (.str "")
  | none => dflt

/-- Invariant of the throttle: the recorded in-loop flush times are spaced by
at least `throttle`, and the last one does not exceed `last_edit`. -/
def flushGapOK (throttle : Nat) (st : DState) : Prop :=
  List.Chain' (fun a b => a + throttle ≤ b) (st.flushes.map Prod.fst) ∧
  ∀ f ∈ (st.flushes.map Prod.fst).getLast?, f ≤ st.last_edit

/-- Per-block contribution to `written_files` (`bot.py` lines 223–232),
stated the way claim C9 reads the code: exactly the `file_path` value of a
dict block of type `tool_use` whose tool name is exactly `"Write"` and whose
input carries a truthy `file_path`; every other block contributes nothing. -/
def writtenDelta (b : JVal) : List JVal :=
  if b.isObj ∧ b.get? "type" = some (.str "tool_use") then
    match ((b.get? "input").getD (.obj .nil)).get? "file_path" with
    | some fp =>
        if (b.get? "name").getD (.str "?") = .str "Write" ∧ fp.truthy then [fp] else []
    | none => []
  else []

/-- Content blocks an event contributes to the tool scan (lines 220–223). -/
def eventBlocks (e : JVal) : List JVal :=
  match (if ((e.get? "message").getD e).isObj then ((e.get? "message").getD e).get? "content" else none) with
  | some (.arr bs) => bs.toList
  | _ => []

-- Concrete sample data used by witnesses and counterexamples.

def sampleCfg : Config := ⟨600, 3, 0⟩

/-- Tool-use event of the §8 scenario of the spec (a Write of `out.txt`). -/
def sampleToolEvent : JVal :=
  .obj (JObj.ofList
    [("type", .str "assistant"),
     ("message", .obj (JObj.ofList
       [("content", .arr (JArr.ofList
         [.obj (JObj.ofList
           [("type", .str "tool_use"), ("name", .str "Write"),
            ("input", .obj (JObj.ofList [("file_path", .str "out.txt")]))])]))]))])

/-- Result event of the §8 scenario of the spec. -/
def sampleResultEvent : JVal :=
  .obj (JObj.ofList
    [("type", .str "result"), ("result", .str "done"), ("session_id", .str "abc123")])

/-- Result event carrying an explicit JSON `null` result value. -/
def nullResultEvent : JVal :=
  .obj (JObj.ofList [("type", .str "result"), ("result", .nul)])

/-- Result event lacking the `"result"` key. -/
def keylessResultEvent : JVal :=
  .obj (JObj.ofList [("type", .str "result")])

/-- Tool-use block naming the `Edit` tool on a file. -/
def sampleEditBlock : JVal :=
  .obj (JObj.ofList
    [("type", .str "tool_use"), ("name", .str "Edit"),
     ("input", .obj (JObj.ofList [("file_path", .str "out.txt")]))])

/-- Trace of the §8 scenario: the Write tool_use event, the result event,
then the sentinel, all well inside the deadline. -/
def sampleTrace1 : List Iter :=
  [⟨0, .item sampleToolEvent, 0⟩, ⟨1, .item sampleResultEvent, 1⟩, ⟨1, .item .nul, 1⟩]

-- ----------------------------------------------------------------------
-- Theorems
-- ----------------------------------------------------------------------

/-- Claim C3: the stdout reader skips blank lines, logs and discards any
line that fails to parse as JSON without aborting the stream (the queued
values are exactly the decoded values of the valid lines before the first
read error, in arrival order), never raises to its caller (it is a total
function of the read results, an I/O error included), and pushes the
terminal sentinel onto the queue exactly once — as the single value appended
after all decoded events — on end-of-file and on any read error alike. -/
theorem reader_skips_logs_and_appends_one_sentinel (steps : List ReadStep) :
    readStdout steps = validEvents steps ++ [JVal.nul] ∧
    (readLoop steps).warnings = invalidLineLogs steps := by
  induction steps with
  | nil => exact ⟨rfl, rfl⟩
  | cons s rest ih =>
    cases s with
    | ioError => exact ⟨rfl, rfl⟩
    | line l =>
      cases l with
      | blank =>
        refine ⟨?_, ?_⟩
        · simpa [readStdout, readLoop, validEvents] using ih.1
        · simpa [readLoop, invalidLineLogs] using ih.2
      | invalid t =>
        refine ⟨?_, ?_⟩
        · simpa [readStdout, readLoop, validEvents] using ih.1
        · simpa [readLoop, invalidLineLogs] using ih.2
      | valid v =>
        refine ⟨?_, ?_⟩
        · simpa [readStdout, readLoop, validEvents] using ih.1
        · simpa [readLoop, invalidLineLogs] using ih.2

-- Field-preservation helper lemmas for the dispatcher steps.

lemma maybeFlush_core (cfg : Config) (st : DState) (now : Nat) :
    (maybeFlush cfg st now).tool_log = st.tool_log ∧
    (maybeFlush cfg st now).written_files = st.written_files ∧
    (maybeFlush cfg st now).result_text = st.result_text ∧
    (maybeFlush cfg st now).session_id = st.session_id ∧
    (maybeFlush cfg st now).saved = st.saved := by
  unfold maybeFlush
  split <;> simp

lemma processBlock_untouched (st : DState) (b : JVal) :
    (processBlock st b).result_text = st.result_text ∧
    (processBlock st b).session_id = st.session_id ∧
    (processBlock st b).saved = st.saved ∧
    (processBlock st b).flushes = st.flushes ∧
    (processBlock st b).last_edit = st.last_edit := by
  unfold processBlock
  split
  · dsimp only
    split
    · split <;> simp
    · simp
  · simp

lemma foldl_processBlock_untouched (blocks : List JVal) (st : DState) :
    (blocks.foldl processBlock st).result_text = st.result_text ∧
    (blocks.foldl processBlock st).session_id = st.session_id ∧
    (blocks.foldl processBlock st).saved = st.saved ∧
    (blocks.foldl processBlock st).flushes = st.flushes ∧
    (blocks.foldl processBlock st).last_edit = st.last_edit := by
  induction blocks generalizing st with
  | nil => simp
  | cons b t ih =>
    have h1 := processBlock_untouched st b
    have h2 := ih (processBlock st b)
    simp only [List.foldl_cons]
    exact ⟨h2.1.trans h1.1, (h2.2.1).trans h1.2.1, (h2.2.2.1).trans h1.2.2.1,
      (h2.2.2.2.1).trans h1.2.2.2.1, (h2.2.2.2.2).trans h1.2.2.2.2⟩

lemma processContent_untouched (st : DState) (e : JVal) :
    (processContent st e).result_text = st.result_text ∧
    (processContent st e).session_id = st.session_id ∧
    (processContent st e).saved = st.saved ∧
    (processContent st e).flushes = st.flushes ∧
    (processContent st e).last_edit = st.last_edit := by
  unfold processContent
  dsimp only
  split
  · exact foldl_processBlock_untouched _ st
  · simp

lemma processOther_result_text (st : DState) (e : JVal) :
    (processOther st e).result_text = st.result_text := by
  unfold processOther
  split
  · split <;> simp [(processContent_untouched st e).1]
  · exact (processContent_untouched st e).1

lemma processOther_timing (st : DState) (e : JVal) :
    (processOther st e).flushes = st.flushes ∧
    (processOther st e).last_edit = st.last_edit := by
  unfold processOther
  split
  · split
    · simp [(processContent_untouched st e).2.2.2.1, (processContent_untouched st e).2.2.2.2]
    · exact ⟨(processContent_untouched st e).2.2.2.1, (processContent_untouched st e).2.2.2.2⟩
  · exact ⟨(processContent_untouched st e).2.2.2.1, (processContent_untouched st e).2.2.2.2⟩

lemma processResult_timing (st : DState) (e : JVal) :
    (processResult st e).flushes = st.flushes ∧
    (processResult st e).last_edit = st.last_edit := by
  unfold processResult
  split
  · split <;> simp
  · simp

lemma processResult_result_text (st : DState) (e : JVal) :
    (processResult st e).result_text = (e.get? "result").getD (.str "") := by
  unfold processResult
  split
  · split <;> simp
  · simp

lemma processResult_saved (st : DState) (e : JVal) (h : sidOK e) :
    (processResult st e).saved = st.saved ++ (e.get? "session_id").toList := by
  unfold processResult
  cases hs : e.get? "session_id" with
  | none => simp [hs]
  | some v =>
    obtain ⟨s, rfl, hne⟩ := h v hs
    simp [hs, JVal.truthy, hne]

lemma processOther_saved (st : DState) (e : JVal) (h : sidOK e) :
    (processOther st e).saved = st.saved ++ (e.get? "session_id").toList := by
  unfold processOther
  cases hs : e.get? "session_id" with
  | none => simp [hs, (processContent_untouched st e).2.2.1]
  | some v =>
    obtain ⟨s, rfl, hne⟩ := h v hs
    simp [hs, hne, (processContent_untouched st e).2.2.1]

/-- Session commits recorded by a completed loop: one commit per pulled event
that carries a (well-typed) token, in arrival order. -/
lemma runLoop_saved (cfg : Config) (trace : List Iter) (st st' : DState)
    (hrun : runLoop cfg st trace = .completed st')
    (H : ∀ e ∈ itemsUntilNul trace, sidOK e) :
    st'.saved = st.saved ++ (itemsUntilNul trace).filterMap (fun e => e.get? "session_id") := by
  induction trace generalizing st with
  | nil => simp [runLoop] at hrun
  | cons it rest ih =>
    unfold runLoop at hrun
    split at hrun
    · exact absurd hrun (by simp)
    · cases hout : it.outcome with
      | qtimeout =>
        rw [hout] at hrun
        have hit : itemsUntilNul (it :: rest) = itemsUntilNul rest := by
          simp [itemsUntilNul, hout]
        rw [hit] at H ⊢
        have := ih (maybeFlush cfg st it.tCheck) hrun H
        rwa [(maybeFlush_core cfg st it.tCheck).2.2.2.2] at this
      | item v =>
        rw [hout] at hrun
        dsimp only at hrun
        by_cases hv : v = JVal.nul
        · rw [if_pos hv] at hrun
          cases hrun
          simp [itemsUntilNul, hout, hv]
        · rw [if_neg hv] at hrun
          have hit : itemsUntilNul (it :: rest) = v :: itemsUntilNul rest := by
            simp [itemsUntilNul, hout, hv]
          rw [hit] at H ⊢
          by_cases hr : isResult v
          · rw [if_pos hr] at hrun
            have := ih (processResult st v) hrun (fun e he => H e (List.mem_cons_of_mem _ he))
            rw [this, processResult_saved st v (H v (List.mem_cons_self _ _))]
            simp [List.filterMap_cons]
            cases hs : v.get? "session_id" <;> simp [hs]
          · rw [if_neg hr] at hrun
            have := ih (maybeFlush cfg (processOther st v) it.tCheck) hrun
              (fun e he => H e (List.mem_cons_of_mem _ he))
            rw [(maybeFlush_core cfg (processOther st v) it.tCheck).2.2.2.2] at this
            rw [this, processOther_saved st v (H v (List.mem_cons_self _ _))]
            simp [List.filterMap_cons]
            cases hs : v.get? "session_id" <;> simp [hs]

lemma lastResultValue_cons_result (e : JVal) (evs : List JVal) (dflt : JVal)
    (hr : isResult e) :
    lastResultValue (e :: evs) dflt = lastResultValue evs ((e.get? "result").getD (.str "")) := by
  unfold lastResultValue
  rw [List.filter_cons_of_pos hr]
  cases hf : evs.filter (fun e => isResult e) with
  | nil => simp
  | cons x xs =>
    rw [List.getLast?_cons_cons]
    cases hL : (x :: xs).getLast? with
    | none => simp at hL
    | some y => rfl

lemma lastResultValue_cons_other (e : JVal) (evs : List JVal) (dflt : JVal)
    (hr : ¬ isResult e) :
    lastResultValue (e :: evs) dflt = lastResultValue evs dflt := by
  unfold lastResultValue
  rw [List.filter_cons_of_neg (by simpa using hr)]

/-- Recorded `result_text` of a completed loop: the value of the last
result-typed event pulled, the initial value when none was. -/
lemma runLoop_result_text (cfg : Config) (trace : List Iter) (st st' : DState)
    (hrun : runLoop cfg st trace = .completed st') :
    st'.result_text = lastResultValue (itemsUntilNul trace) st.result_text := by
  induction trace generalizing st with
  | nil => simp [runLoop] at hrun
  | cons it rest ih =>
    unfold runLoop at hrun
    split at hrun
    · exact absurd hrun (by simp)
    · cases hout : it.outcome with
      | qtimeout =>
        rw [hout] at hrun
        dsimp only at hrun
        have := ih (maybeFlush cfg st it.tCheck) hrun
        rw [(maybeFlush_core cfg st it.tCheck).2.2.1] at this
        simpa [itemsUntilNul, hout] using this
      | item v =>
        rw [hout] at hrun
        dsimp only at hrun
        by_cases hv : v = JVal.nul
        · rw [if_pos hv] at hrun
          cases hrun
          simp [itemsUntilNul, hout, hv, lastResultValue]
        · rw [if_neg hv] at hrun
          have hit : itemsUntilNul (it :: rest) = v :: itemsUntilNul rest := by
            simp [itemsUntilNul, hout, hv]
          rw [hit]
          by_cases hr : isResult v
          · rw [if_pos hr] at hrun
            have := ih (processResult st v) hrun
            rw [processResult_result_text st v] at this
            rw [this, lastResultValue_cons_result v _ _ hr]
          · rw [if_neg hr] at hrun
            have := ih (maybeFlush cfg (processOther st v) it.tCheck) hrun
            rw [(maybeFlush_core cfg (processOther st v) it.tCheck).2.2.1,
              processOther_result_text st v] at this
            rw [this, lastResultValue_cons_other v _ _ hr]

/-- A completed loop pulled the sentinel from the queue. -/
lemma runLoop_completed_has_sentinel (cfg : Config) (trace : List Iter) (st st' : DState)
    (hrun : runLoop cfg st trace = .completed st') :
    ∃ n, ∃ h : n < trace.length, (trace.get ⟨n, h⟩).outcome = .item .nul := by
  induction trace generalizing st with
  | nil => simp [runLoop] at hrun
  | cons it rest ih =>
    unfold runLoop at hrun
    split at hrun
    · exact absurd hrun (by simp)
    · cases hout : it.outcome with
      | qtimeout =>
        rw [hout] at hrun
        dsimp only at hrun
        obtain ⟨n, h, hn⟩ := ih _ hrun
        exact ⟨n + 1, by simpa using Nat.succ_lt_succ h, hn⟩
      | item v =>
        rw [hout] at hrun
        dsimp only at hrun
        by_cases hv : v = JVal.nul
        · exact ⟨0, by simp, by simpa [hv] using hout⟩
        · rw [if_neg hv] at hrun
          by_cases hr : isResult v
          · rw [if_pos hr] at hrun
            obtain ⟨n, h, hn⟩ := ih _ hrun
            exact ⟨n + 1, by simpa using Nat.succ_lt_succ h, hn⟩
          · rw [if_neg hr] at hrun
            obtain ⟨n, h, hn⟩ := ih _ hrun
            exact ⟨n + 1, by simpa using Nat.succ_lt_succ h, hn⟩

/-- If some iteration observes the deadline exceeded and no earlier iteration
pulled the sentinel, the loop returns through the timeout path. -/
lemma runLoop_timesOut (cfg : Config) (trace : List Iter) (st : DState) (k : Nat)
    (hk : k < trace.length)
    (ht : (trace.get ⟨k, hk⟩).tTop - cfg.start > cfg.timeout)
    (hpre : ∀ j, j < k → ∀ hj : j < trace.length, (trace.get ⟨j, hj⟩).outcome ≠ .item .nul) :
    ∃ stf, runLoop cfg st trace = .timedOut stf := by
  induction trace generalizing st k with
  | nil => exact absurd hk (by simp)
  | cons it rest ih =>
    by_cases htop : it.tTop - cfg.start > cfg.timeout
    · exact ⟨st, by unfold runLoop; rw [if_pos htop]⟩
    · cases k with
      | zero => exact absurd ht htop
      | succ k =>
        have hk2 : k < rest.length := by simpa using Nat.lt_of_succ_lt_succ hk
        have ht2 : (rest.get ⟨k, hk2⟩).tTop - cfg.start > cfg.timeout := by
          simpa using ht
        have hpre2 : ∀ j, j < k → ∀ hj : j < rest.length,
            (rest.get ⟨j, hj⟩).outcome ≠ .item .nul := by
          intro j hj hjl
          have := hpre (j + 1) (Nat.succ_lt_succ hj) (by simpa using Nat.succ_lt_succ hjl)
          simpa using this
        have hhead : it.outcome ≠ .item .nul := by
          have := hpre 0 (Nat.succ_pos k) (by simp)
          simpa using this
        unfold runLoop
        rw [if_neg htop]
        cases hout : it.outcome with
        | qtimeout => exact ih _ k hk2 ht2 hpre2
        | item v =>
          have hv : v ≠ JVal.nul := by
            intro h
            exact hhead (by rw [hout, h])
          dsimp only
          rw [if_neg hv]
          by_cases hr : isResult v
          · rw [if_pos hr]
            exact ih _ k hk2 ht2 hpre2
          · rw [if_neg hr]
            exact ih _ k hk2 ht2 hpre2

lemma maybeFlush_flushGapOK (cfg : Config) (st : DState) (now : Nat)
    (hle : st.last_edit ≤ now) (hinv : flushGapOK cfg.throttle st) :
    flushGapOK cfg.throttle (maybeFlush cfg st now) ∧ (maybeFlush cfg st now).last_edit ≤ now := by
  unfold maybeFlush
  split
  · rename_i hcond
    have hgap : st.last_edit + cfg.throttle ≤ now := by omega
    constructor
    · constructor
      · simp only [List.map_append]
        rw [List.chain'_append]
        refine ⟨hinv.1, by simp, ?_⟩
        intro x hx y hy
        simp only [List.map_cons, List.map_nil, List.head?_cons, Option.mem_def,
          Option.some.injEq] at hy
        have := hinv.2 x hx
        omega
      · intro f hf
        simp only [List.map_append, List.map_cons, List.map_nil,
          List.getLast?_concat, Option.mem_def, Option.some.injEq] at hf
        simp [← hf]
    · simp
  · exact ⟨hinv, hle⟩

/-- The flush-spacing invariant is preserved by the whole loop on any
clock-monotone trace. -/
lemma runLoop_flushGapOK (cfg : Config) (trace : List Iter)
    (st : DState) (lo : Nat) (hmono : TraceMono lo trace) (hle : st.last_edit ≤ lo)
    (hinv : flushGapOK cfg.throttle st) :
    flushGapOK cfg.throttle (runLoop cfg st trace).state := by
  induction trace generalizing st lo with
  | nil => exact hinv
  | cons it rest ih =>
    obtain ⟨hlo, htc, hmono2⟩ := hmono
    unfold runLoop
    split
    · exact hinv
    · cases hout : it.outcome with
      | qtimeout =>
        dsimp only
        have h1 := maybeFlush_flushGapOK cfg st it.tCheck (by omega) hinv
        exact ih _ it.tCheck hmono2 h1.2 h1.1
      | item v =>
        dsimp only
        by_cases hv : v = JVal.nul
        · rw [if_pos hv]
          exact hinv
        · rw [if_neg hv]
          by_cases hr : isResult v
          · rw [if_pos hr]
            have hfl := processResult_timing st v
            have hinv2 : flushGapOK cfg.throttle (processResult st v) := by
              unfold flushGapOK
              rw [hfl.1, hfl.2]
              exact hinv
            exact ih _ it.tCheck hmono2 (by rw [hfl.2]; omega) hinv2
          · rw [if_neg hr]
            have hfl := processOther_timing st v
            have hinv2 : flushGapOK cfg.throttle (processOther st v) := by
              unfold flushGapOK
              rw [hfl.1, hfl.2]
              exact hinv
            have h1 := maybeFlush_flushGapOK cfg (processOther st v) it.tCheck
              (by rw [hfl.2]; omega) hinv2
            exact ih _ it.tCheck hmono2 h1.2 h1.1

lemma processBlock_written (st : DState) (b : JVal) :
    (processBlock st b).written_files = st.written_files ++ writtenDelta b := by
  unfold processBlock writtenDelta
  split
  · dsimp only
    split
    · split <;> simp
    · simp
  · simp

lemma foldl_processBlock_written (blocks : List JVal) (st : DState) :
    (blocks.foldl processBlock st).written_files =
      st.written_files ++ blocks.flatMap writtenDelta := by
  induction blocks generalizing st with
  | nil => simp
  | cons b t ih =>
    simp only [List.foldl_cons, List.flatMap_cons]
    rw [ih (processBlock st b), processBlock_written st b, List.append_assoc]

lemma processOther_written (st : DState) (e : JVal) :
    (processOther st e).written_files =
      st.written_files ++ (eventBlocks e).flatMap writtenDelta := by
  have hcontent : (processContent st e).written_files =
      st.written_files ++ (eventBlocks e).flatMap writtenDelta := by
    unfold processContent eventBlocks
    dsimp only
    split
    · rename_i blocks heq
      exact foldl_processBlock_written blocks.toList st
    · rename_i heq
      simp
  unfold processOther
  split
  · split
    · simpa using hcontent
    · exact hcontent
  · exact hcontent

/-- Claim C1: for every sequence of valid NDJSON events (dict-shaped, with
well-typed tokens) ending in a result event, pulled in full by a normally
completing run (exit code 0), the final answer returned by `stream_claude`
equals the text of the last result event, and the sequence of tokens
committed to the session store is exactly the sequence of `session_id`
values seen across all events (result or otherwise) in arrival order — so
the finally committed token is the last token seen. -/
theorem final_answer_last_result_token_last_seen
    (cfg : Config) (sid0 : JVal) (trace : List Iter) (st' : DState) (stderr : String)
    (pre : List JVal) (eRes : JVal) (s : String)
    (hrun : runLoop cfg (initState sid0) trace = .completed st')
    (hitems : itemsUntilNul trace = pre ++ [eRes])
    (hres : isResult eRes)
    (htext : (eRes.get? "result").getD (.str "") = .str s)
    (H : ∀ e ∈ itemsUntilNul trace, sidOK e) :
    ∃ r, streamRun cfg (initState sid0) trace 0 stderr = some r ∧
      r.answer = .str s ∧
      r.saved = ((pre ++ [eRes]).filterMap (fun e => e.get? "session_id")) ∧
      r.saved.getLast? = ((pre ++ [eRes]).filterMap (fun e => e.get? "session_id")).getLast? := by
  have hrt := runLoop_result_text cfg trace _ _ hrun
  rw [hitems] at hrt
  have hlast : lastResultValue (pre ++ [eRes]) (initState sid0).result_text = .str s := by
    unfold lastResultValue
    rw [List.filter_append]
    have : List.filter (fun e => isResult e) [eRes] = [eRes] := by
      simp [hres]
    rw [this, List.getLast?_concat]
    exact htext
  rw [hlast] at hrt
  have hsv := runLoop_saved cfg trace _ _ hrun H
  rw [hitems] at hsv
  simp only [initState] at hsv
  unfold streamRun
  rw [hrun]
  refine ⟨_, rfl, ?_, ?_, ?_⟩
  · simp [finalAnswer, hrt]
  · simpa using hsv
  · simp only []
    rw [hsv]
    simp

/-- Witness for C1 at the §8 scenario of the spec: a Write tool_use event,
then a result event with text `"done"` and token `"abc123"`, then the
sentinel. -/
theorem final_answer_last_result_token_last_seen_witness :
    ∃ r, streamRun sampleCfg (initState .nul) sampleTrace1 0 "" = some r ∧
      r.answer = .str "done" ∧
      r.saved = (([sampleToolEvent] ++ [sampleResultEvent]).filterMap (fun e => e.get? "session_id")) ∧
      r.saved.getLast? = (([sampleToolEvent] ++ [sampleResultEvent]).filterMap (fun e => e.get? "session_id")).getLast? := by
  refine final_answer_last_result_token_last_seen sampleCfg .nul sampleTrace1
    ((runLoop sampleCfg (initState .nul) sampleTrace1).state) ""
    [sampleToolEvent] sampleResultEvent "done" ?_ ?_ ?_ ?_ ?_
  · decide
  · decide
  · decide
  · decide
  · intro e he v hv
    rw [show itemsUntilNul sampleTrace1 = [sampleToolEvent, sampleResultEvent] from by decide] at he
    simp only [List.mem_cons, List.not_mem_nil, or_false] at he
    rcases he with rfl | rfl
    · rw [show sampleToolEvent.get? "session_id" = none from by decide] at hv
      cases hv
    · rw [show sampleResultEvent.get? "session_id" = some (.str "abc123") from by decide] at hv
      cases hv
      exact ⟨"abc123", rfl, by decide⟩

/-- Claim C2: whenever the elapsed wall clock observed at the top of some
loop iteration exceeds the configured timeout and no earlier iteration
pulled the terminal sentinel, the dispatcher kills the process and returns
the fixed timeout advisory — whatever progress, result text or session
commits had accumulated, the answer is the advisory and the kill happened. -/
theorem timeout_kills_and_returns_advisory
    (cfg : Config) (st0 : DState) (trace : List Iter) (rc : Int) (stderr : String) (k : Nat)
    (hk : k < trace.length)
    (ht : (trace.get ⟨k, hk⟩).tTop - cfg.start > cfg.timeout)
    (hpre : ∀ j, j < k → ∀ hj : j < trace.length, (trace.get ⟨j, hj⟩).outcome ≠ .item .nul) :
    ∃ r, streamRun cfg st0 trace rc stderr = some r ∧
      r.answer = .str (timeoutMsg cfg) ∧ r.killed = true := by
  obtain ⟨stf, hrun⟩ := runLoop_timesOut cfg trace st0 k hk ht hpre
  unfold streamRun
  rw [hrun]
  exact ⟨_, rfl, rfl, rfl⟩

/-- Witness for C2: a single iteration whose top-of-loop clock is past the
deadline; the run returns the advisory with the kill flag set. -/
theorem timeout_kills_and_returns_advisory_witness :
    ∃ r, streamRun sampleCfg (initState .nul) [⟨601, .qtimeout, 601⟩] 0 "" = some r ∧
      r.answer = .str (timeoutMsg sampleCfg) ∧ r.killed = true := by
  refine timeout_kills_and_returns_advisory sampleCfg (initState .nul)
    [⟨601, .qtimeout, 601⟩] 0 "" 0 (by decide) (by decide) ?_
  intro j hj
  exact absurd hj (by omega)

/-- Claim C5: a completed run whose pulled events include no result event
returns, for a nonzero exit code, an error string containing the exit code
and the captured stderr (in fact exactly `"Error (exit <code>): <stderr>"`);
a completed run with no output at all and exit code 0 returns the fixed
`"(no response)"` placeholder; and every run that ends by deadline or
sentinel returns an answer plus a file list rather than propagating a
fault. -/
theorem failure_paths_yield_text
    (cfg : Config) (sid0 : JVal) (trace : List Iter) (st' : DState)
    (rc : Int) (stderr : String) :
    (runLoop cfg (initState sid0) trace = .completed st' →
      (∀ e ∈ itemsUntilNul trace, ¬ isResult e) → rc ≠ 0 →
      ∃ r, streamRun cfg (initState sid0) trace rc stderr = some r ∧
        r.answer = .str ("Error (exit " ++ toString rc ++ "): " ++ stderr)) ∧
    (runLoop cfg (initState sid0) trace = .completed st' →
      itemsUntilNul trace = [] →
      ∃ r, streamRun cfg (initState sid0) trace 0 "" = some r ∧
        r.answer = .str "(no response)") ∧
    ((∃ stf, runLoop cfg (initState sid0) trace = .timedOut stf) ∨
     (∃ stf, runLoop cfg (initState sid0) trace = .completed stf) →
      ∃ r, streamRun cfg (initState sid0) trace rc stderr = some r) := by
  refine ⟨?_, ?_, ?_⟩
  · intro hrun hnores hrc
    have hrt := runLoop_result_text cfg trace _ _ hrun
    have hfil : (itemsUntilNul trace).filter (fun e => isResult e) = [] := by
      rw [List.filter_eq_nil_iff]
      intro a ha
      simpa using hnores a ha
    rw [lastResultValue, hfil] at hrt
    simp only [List.getLast?_nil, initState] at hrt
    unfold streamRun
    rw [hrun]
    refine ⟨_, rfl, ?_⟩
    simp [finalAnswer, hrt, JVal.truthy, hrc]
  · intro hrun hempty
    have hrt := runLoop_result_text cfg trace _ _ hrun
    rw [hempty] at hrt
    simp only [lastResultValue, List.filter_nil, List.getLast?_nil, initState] at hrt
    unfold streamRun
    rw [hrun]
    refine ⟨_, rfl, ?_⟩
    simp [finalAnswer, hrt]
  · rintro (⟨stf, hrun⟩ | ⟨stf, hrun⟩) <;>
    · unfold streamRun
      rw [hrun]
      exact ⟨_, rfl⟩

/-- Witness for C5: exit 1 with stderr `"permission denied"` and an
event-free stream yields `"Error (exit 1): permission denied"`; the same
stream with exit 0 and empty stderr yields `"(no response)"`. -/
theorem failure_paths_yield_text_witness :
    (∃ r, streamRun sampleCfg (initState .nul) [⟨0, .item .nul, 0⟩] 1 "permission denied" = some r ∧
      r.answer = .str "Error (exit 1): permission denied") ∧
    (∃ r, streamRun sampleCfg (initState .nul) [⟨0, .item .nul, 0⟩] 0 "" = some r ∧
      r.answer = .str "(no response)") := by
  constructor
  · have h := (failure_paths_yield_text sampleCfg .nul [⟨0, .item .nul, 0⟩]
      ((runLoop sampleCfg (initState .nul) [⟨0, .item .nul, 0⟩]).state) 1 "permission denied").1
      (by decide) (by decide) (by decide)
    simpa using h
  · exact (failure_paths_yield_text sampleCfg .nul [⟨0, .item .nul, 0⟩]
      ((runLoop sampleCfg (initState .nul) [⟨0, .item .nul, 0⟩]).state) 0 "").2.1
      (by decide) (by decide)

/-- Claim C6: a result event never terminates the dispatch loop — an
iteration pulling a result event within the deadline continues the loop on
the remaining trace from the updated state, so trailing events (token-only
ones included) are still processed — and a loop that completes did pull the
sentinel: exit happens only on the sentinel or on the deadline. -/
theorem result_event_never_terminates_loop :
    (∀ (cfg : Config) (st : DState) (it : Iter) (rest : List Iter) (v : JVal),
       it.outcome = .item v → isResult v → it.tTop - cfg.start ≤ cfg.timeout →
       runLoop cfg st (it :: rest) = runLoop cfg (processResult st v) rest) ∧
    (∀ (cfg : Config) (st st' : DState) (trace : List Iter),
       runLoop cfg st trace = .completed st' →
       ∃ n, ∃ h : n < trace.length, (trace.get ⟨n, h⟩).outcome = .item .nul) := by
  constructor
  · intro cfg st it rest v hout hres hdl
    have hv : v ≠ JVal.nul := by
      intro h
      rw [h] at hres
      simp [isResult, JVal.get?] at hres
    conv_lhs => unfold runLoop
    rw [if_neg (by omega), hout]
    dsimp only
    rw [if_neg hv, if_pos hres]
  · intro cfg st st' trace hrun
    exact runLoop_completed_has_sentinel cfg trace st st' hrun

/-- Witness for C6: pulling the §8 result event in the first iteration
continues the loop on the rest of the trace (here: a trailing sentinel
iteration), rather than returning. -/
theorem result_event_never_terminates_loop_witness :
    runLoop sampleCfg (initState .nul) [⟨1, .item sampleResultEvent, 1⟩, ⟨1, .item .nul, 1⟩] =
      runLoop sampleCfg (processResult (initState .nul) sampleResultEvent) [⟨1, .item .nul, 1⟩] :=
  result_event_never_terminates_loop.1 sampleCfg (initState .nul)
    ⟨1, .item sampleResultEvent, 1⟩ [⟨1, .item .nul, 1⟩] sampleResultEvent
    (by decide) (by decide) (by decide)

/-- Claim C9: a path is appended to the written-file list exactly when a
content block is a dict of type `tool_use` whose tool name is exactly
`"Write"` with a truthy `file_path` input (the appended path being that
`file_path` value, captured by `writtenDelta`); blocks naming any other
tool, `"Edit"` included, never contribute; and over a whole non-result
event the appended paths are exactly the concatenated per-block
contributions. -/
theorem written_files_append_iff_write_tool :
    (∀ (st : DState) (b : JVal),
       (processBlock st b).written_files = st.written_files ++ writtenDelta b) ∧
    (∀ (st : DState) (b : JVal), b.get? "name" = some (.str "Edit") →
       (processBlock st b).written_files = st.written_files) ∧
    (∀ (st : DState) (e : JVal),
       (processOther st e).written_files =
         st.written_files ++ (eventBlocks e).flatMap writtenDelta) := by
  refine ⟨processBlock_written, ?_, processOther_written⟩
  intro st b hname
  rw [processBlock_written st b]
  have hdelta : writtenDelta b = [] := by
    unfold writtenDelta
    split
    · split
      · rw [if_neg]
        intro hc
        rw [hname] at hc
        simp at hc
      · rfl
    · rfl
  rw [hdelta, List.append_nil]

/-- Witness for C9: an `Edit` tool_use block on `out.txt` appends nothing to
the written-file list. -/
theorem written_files_append_iff_write_tool_witness :
    (processBlock (initState .nul) sampleEditBlock).written_files = [] := by
  have h := written_files_append_iff_write_tool.2.1 (initState .nul) sampleEditBlock (by decide)
  simpa using h

/-- Counterexample to claim C4 as stated: a Write tool_use event leaves a
status update pending (its throttle check at clock 0 is too early to flush),
then the deadline fires; the run returns through the timeout path with the
update still pending, no in-loop flush and no final flush — so on timeout no
additional final flush occurs. -/
theorem pending_update_lost_on_timeout_cex :
    (runLoop sampleCfg (initState .nul)
      [⟨0, .item sampleToolEvent, 0⟩, ⟨601, .qtimeout, 601⟩]).state.pending_update = true ∧
    streamRun sampleCfg (initState .nul)
      [⟨0, .item sampleToolEvent, 0⟩, ⟨601, .qtimeout, 601⟩] 0 "" =
      some { answer := .str (timeoutMsg sampleCfg)
             written := [.str "out.txt"]
             killed := true
             flushes := []
             finalFlush := none
             saved := [] } := by
  decide

/-- Claim C4 as amended: consecutive in-loop status flushes are separated by
at least the configured throttle interval (on any clock-monotone run);
whenever an update is still pending when the loop ends through the reader's
sentinel, exactly one additional unthrottled final flush occurs before
`stream_claude` returns; but on timeout the function returns immediately and
no final flush occurs, pending or not. -/
theorem throttle_spacing_and_final_flush
    (cfg : Config) (sid0 : JVal) (st0 st' : DState) (trace : List Iter)
    (rc : Int) (stderr : String) :
    (TraceMono cfg.start trace →
      List.Chain' (fun a b => a + cfg.throttle ≤ b)
        (((runLoop cfg (initState sid0) trace).state).flushes.map Prod.fst)) ∧
    (runLoop cfg st0 trace = .completed st' →
      ∃ r, streamRun cfg st0 trace rc stderr = some r ∧
        r.finalFlush = (if st'.pending_update then some (renderStatus st'.tool_log) else none)) ∧
    (runLoop cfg st0 trace = .timedOut st' →
      ∃ r, streamRun cfg st0 trace rc stderr = some r ∧ r.finalFlush = none) := by
  refine ⟨?_, ?_, ?_⟩
  · intro hmono
    exact (runLoop_flushGapOK cfg trace (initState sid0) cfg.start hmono
      (by simp [initState]) (by simp [flushGapOK, initState])).1
  · intro hrun
    unfold streamRun
    rw [hrun]
    exact ⟨_, rfl, rfl⟩
  · intro hrun
    unfold streamRun
    rw [hrun]
    exact ⟨_, rfl, rfl⟩

/-- Witness for the amended C4: on the §8 trace the in-loop flush times are
throttle-spaced (trivially, there are none), and the pending Write update is
flushed exactly once after the sentinel ends the loop. -/
theorem throttle_spacing_and_final_flush_witness :
    List.Chain' (fun a b => a + sampleCfg.throttle ≤ b)
      (((runLoop sampleCfg (initState .nul) sampleTrace1).state).flushes.map Prod.fst) ∧
    (∃ r, streamRun sampleCfg (initState .nul) sampleTrace1 0 "" = some r ∧
      r.finalFlush = some "Writing out.txt") := by
  constructor
  · exact (throttle_spacing_and_final_flush sampleCfg .nul (initState .nul)
      (initState .nul) sampleTrace1 0 "").1
      (by simp [TraceMono, sampleTrace1, sampleCfg])
  · obtain ⟨r, hr, hf⟩ := (throttle_spacing_and_final_flush sampleCfg .nul (initState .nul)
      ((runLoop sampleCfg (initState .nul) sampleTrace1).state) sampleTrace1 0 "").2.1
      (by decide)
    refine ⟨r, hr, ?_⟩
    rw [hf]
    decide

/-- Counterexample to claim C10 as stated: a result event carrying an
explicit JSON `null` result arrives during the stream, yet the completed
exit-0 run returns the `"(no response)"` fallback — so the fallback is not
taken only when no result event arrived at all. -/
theorem null_result_takes_fallback_cex :
    isResult nullResultEvent = true ∧
    nullResultEvent ∈ itemsUntilNul [⟨0, .item nullResultEvent, 0⟩, ⟨0, .item .nul, 0⟩] ∧
    streamRun sampleCfg (initState .nul)
      [⟨0, .item nullResultEvent, 0⟩, ⟨0, .item .nul, 0⟩] 0 "" =
      some { answer := .str "(no response)"
             written := []
             killed := false
             flushes := []
             finalFlush := none
             saved := [] } := by
  decide

/-- Claim C10 as amended: a result event whose record lacks the `"result"`
key sets the recorded answer to the empty string (not Python `None`); the
stderr/`"(no response)"` fallback corresponds to a recorded answer of `None`,
which after a completed run holds exactly when either no result event
arrived at all or the last result event carried an explicit JSON `null`
result; and a stream ending in a keyless result event yields, at exit code
0, the empty string as final answer. -/
theorem keyless_result_yields_empty_answer
    (st : DState) (e : JVal) (cfg : Config) (sid0 : JVal) (trace : List Iter) (st' : DState)
    (stderr : String) :
    (e.get? "result" = none → (processResult st e).result_text = .str "") ∧
    (runLoop cfg (initState sid0) trace = .completed st' →
      (st'.result_text = JVal.nul ↔
        match ((itemsUntilNul trace).filter (fun x => isResult x)).getLast? with
        | none => True
        | some eR => eR.get? "result" = some .nul)) ∧
    (∀ pre eRes, runLoop cfg (initState sid0) trace = .completed st' →
      itemsUntilNul trace = pre ++ [eRes] → isResult eRes → eRes.get? "result" = none →
      ∃ r, streamRun cfg (initState sid0) trace 0 stderr = some r ∧ r.answer = .str "") := by
  refine ⟨?_, ?_, ?_⟩
  · intro hkey
    rw [processResult_result_text st e, hkey]
    rfl
  · intro hrun
    have hrt := runLoop_result_text cfg trace _ _ hrun
    rw [lastResultValue] at hrt
    cases hL : ((itemsUntilNul trace).filter (fun x => isResult x)).getLast? with
    | none =>
      rw [hL] at hrt
      simp only [initState] at hrt
      simp [hrt]
    | some eR =>
      rw [hL] at hrt
      dsimp only at hrt ⊢
      cases hg : eR.get? "result" with
      | none =>
        rw [hg] at hrt
        simp only [Option.getD_none] at hrt
        simp [hrt, hg]
      | some v =>
        rw [hg] at hrt
        simp only [Option.getD_some] at hrt
        rw [hrt]
        simp
  · intro pre eRes hrun hitems hres hg
    have hrt := runLoop_result_text cfg trace _ _ hrun
    rw [hitems] at hrt
    have hlast : lastResultValue (pre ++ [eRes]) (initState sid0).result_text = .str "" := by
      unfold lastResultValue
      rw [List.filter_append]
      have hfil : List.filter (fun x => isResult x) [eRes] = [eRes] := by simp [hres]
      rw [hfil, List.getLast?_concat]
      dsimp only
      rw [hg]
      rfl
    rw [hlast] at hrt
    unfold streamRun
    rw [hrun]
    refine ⟨_, rfl, ?_⟩
    simp [finalAnswer, hrt]

/-- Witness for the amended C10: a stream consisting of one keyless result
event, completed at exit code 0, returns the empty string. -/
theorem keyless_result_yields_empty_answer_witness :
    ∃ r, streamRun sampleCfg (initState .nul)
        [⟨0, .item keylessResultEvent, 0⟩, ⟨0, .item .nul, 0⟩] 0 "" = some r ∧
      r.answer = .str "" := by
  refine (keyless_result_yields_empty_answer (initState .nul) keylessResultEvent sampleCfg .nul
    [⟨0, .item keylessResultEvent, 0⟩, ⟨0, .item .nul, 0⟩]
    ((runLoop sampleCfg (initState .nul)
      [⟨0, .item keylessResultEvent, 0⟩, ⟨0, .item .nul, 0⟩]).state) "").2.2
    [] keylessResultEvent (by decide) (by decide) (by decide) (by decide)

lemma sendFilesLoop_targets_fresh (fs : FileSys) (ws : String) (written : List String)
    (seen : List String) :
    ((sendFilesLoop fs ws seen written).filterMap SendAction.target).Nodup ∧
    ∀ p ∈ (sendFilesLoop fs ws seen written).filterMap SendAction.target, p ∉ seen := by
  induction written generalizing seen with
  | nil => simp [sendFilesLoop]
  | cons raw rest ih =>
    unfold sendFilesLoop
    dsimp only
    split
    · exact ⟨(ih seen).1, (ih seen).2⟩
    · rename_i hseen
      have hskip : ∀ l : List SendAction,
          ((l.filterMap SendAction.target).Nodup ∧
            ∀ q ∈ l.filterMap SendAction.target, q ∉ canonicalize ws raw :: seen) →
          (l.filterMap SendAction.target).Nodup ∧
            ∀ q ∈ l.filterMap SendAction.target, q ∉ seen :=
        fun l h => ⟨h.1, fun q hq hmem => h.2 q hq (List.mem_cons_of_mem _ hmem)⟩
      have hcons : ∀ l : List SendAction,
          ((l.filterMap SendAction.target).Nodup ∧
            ∀ q ∈ l.filterMap SendAction.target, q ∉ canonicalize ws raw :: seen) →
          (canonicalize ws raw :: l.filterMap SendAction.target).Nodup ∧
            ∀ q ∈ canonicalize ws raw :: l.filterMap SendAction.target, q ∉ seen := by
        intro l h
        refine ⟨List.Nodup.cons (fun hmem => h.2 _ hmem (List.mem_cons_self _ _)) h.1, ?_⟩
        intro q hq
        rcases List.mem_cons.mp hq with rfl | hq2
        · exact hseen
        · exact fun hmem => h.2 q hq2 (List.mem_cons_of_mem _ hmem)
      split
      · exact hskip _ (ih _)
      · split
        · exact hskip _ (ih _)
        · split
          · split
            · simpa [SendAction.target] using hskip _ (ih _)
            · simpa [SendAction.target] using hcons _ (ih _)
          · split
            · simpa [SendAction.target] using hskip _ (ih _)
            · simpa [SendAction.target] using hcons _ (ih _)

/-- Counterexample to claim C7 as stated: with workspace root `/a`, the
relative path `"a/x.png"` canonicalizes to `/a/a/x.png` — not to `/a/x.png`
— so the two paths of the claimed instance are not duplicates, and on a file
system where both exist the run performs two sends whose file name is
`x.png`, not exactly one. -/
theorem duplicate_relative_path_two_sends_cex :
    canonicalize (resolvePath "/a") "a/x.png" = "/a/a/x.png" ∧
    sendWrittenFiles [("/a/x.png", 5), ("/a/a/x.png", 7)] "/a" ["/a/x.png", "a/x.png"] =
      [.photo "/a/x.png" "x.png", .photo "/a/a/x.png" "x.png"] := by
  decide

/-- Claim C7 as amended: paths are resolved against the workspace root and
deduplicated by canonical path preserving first-seen order, so no two send
actions ever target the same canonical path; a true duplicate pair such as
`["/a/x.png", "x.png"]` under workspace root `/a` produces exactly one send
for `x.png`. -/
theorem artifact_dedup_by_canonical_path (fs : FileSys) (ws : String) (written : List String) :
    ((sendWrittenFiles fs ws written).filterMap SendAction.target).Nodup ∧
    sendWrittenFiles [("/a/x.png", 5)] "/a" ["/a/x.png", "x.png"] =
      [.photo "/a/x.png" "x.png"] := by
  exact ⟨(sendFilesLoop_targets_fresh fs (resolvePath ws) written []).1, by decide⟩

lemma sendFilesLoop_size_bounds (fs : FileSys) (ws : String) (written : List String)
    (seen : List String) (a : SendAction) (p : String)
    (ha : a ∈ sendFilesLoop fs ws seen written) (hp : a.target = some p) :
    ∃ s, fs.size? p = some s ∧ 0 < s ∧
      (isImagePath p = true → s ≤ 10 * 1024 * 1024) ∧
      (isImagePath p = false → s ≤ 50 * 1024 * 1024) := by
  induction written generalizing seen with
  | nil => simp [sendFilesLoop] at ha
  | cons raw rest ih =>
    unfold sendFilesLoop at ha
    dsimp only at ha
    split at ha
    · exact ih seen ha
    · split at ha
      · exact ih _ ha
      · rename_i size hsz
        split at ha
        · exact ih _ ha
        · rename_i hsz0
          split at ha
          · rename_i himg
            split at ha
            · rcases List.mem_cons.mp ha with rfl | ha2
              · simp [SendAction.target] at hp
              · exact ih _ ha2
            · rename_i hle
              rcases List.mem_cons.mp ha with rfl | ha2
              · simp only [SendAction.target, Option.some.injEq] at hp
                subst hp
                exact ⟨size, hsz, by omega, fun _ => by omega,
                  fun hni => by rw [himg] at hni; cases hni⟩
              · exact ih _ ha2
          · rename_i hnimg
            split at ha
            · rcases List.mem_cons.mp ha with rfl | ha2
              · simp [SendAction.target] at hp
              · exact ih _ ha2
            · rename_i hle
              rcases List.mem_cons.mp ha with rfl | ha2
              · simp only [SendAction.target, Option.some.injEq] at hp
                subst hp
                refine ⟨size, hsz, by omega, ?_, fun _ => by omega⟩
                intro himg
                exact absurd himg hnimg
              · exact ih _ ha2

lemma sendFilesLoop_oversize_notice (fs : FileSys) (ws : String) (written : List String)
    (seen : List String) (raw : String) (s : Nat)
    (hmem : raw ∈ written) (hfresh : canonicalize ws raw ∉ seen)
    (hsz : fs.size? (canonicalize ws raw) = some s) :
    (isImagePath (canonicalize ws raw) = true → s > 10 * 1024 * 1024 →
      SendAction.message ("Image too large for Telegram (>10MB): " ++ pathName (canonicalize ws raw))
        ∈ sendFilesLoop fs ws seen written) ∧
    (isImagePath (canonicalize ws raw) = false → s > 50 * 1024 * 1024 →
      SendAction.message ("File too large for Telegram (>50MB): " ++ pathName (canonicalize ws raw))
        ∈ sendFilesLoop fs ws seen written) := by
  induction written generalizing seen with
  | nil => cases hmem
  | cons raw2 rest ih =>
    unfold sendFilesLoop
    dsimp only
    by_cases hpp : canonicalize ws raw2 = canonicalize ws raw
    · rw [hpp, if_neg hfresh, hsz]
      dsimp only
      constructor
      · intro himg hbig
        rw [if_neg (by omega : ¬ s = 0), if_pos himg, if_pos hbig]
        exact List.mem_cons_self _ _
      · intro hnimg hbig
        rw [if_neg (by omega : ¬ s = 0), if_neg (by simp [hnimg]), if_pos hbig]
        exact List.mem_cons_self _ _
    · have hmem2 : raw ∈ rest := by
        rcases List.mem_cons.mp hmem with rfl | h2
        · exact absurd rfl hpp
        · exact h2
      have hfresh2 : canonicalize ws raw ∉ canonicalize ws raw2 :: seen := by
        intro h
        rcases List.mem_cons.mp h with h1 | h2
        · exact hpp h1.symm
        · exact hfresh h2
      have hlift : ∀ (x y : SendAction) (l : List SendAction), y ∈ l → y ∈ x :: l :=
        fun x y l h => List.mem_cons_of_mem x h
      split
      · exact ih seen hmem2 hfresh
      · split
        · exact ih _ hmem2 hfresh2
        · split
          · exact ih _ hmem2 hfresh2
          · split
            · split
              · have h := ih _ hmem2 hfresh2
                exact ⟨fun a b => hlift _ _ _ (h.1 a b), fun a b => hlift _ _ _ (h.2 a b)⟩
              · have h := ih _ hmem2 hfresh2
                exact ⟨fun a b => hlift _ _ _ (h.1 a b), fun a b => hlift _ _ _ (h.2 a b)⟩
            · split
              · have h := ih _ hmem2 hfresh2
                exact ⟨fun a b => hlift _ _ _ (h.1 a b), fun a b => hlift _ _ _ (h.2 a b)⟩
              · have h := ih _ hmem2 hfresh2
                exact ⟨fun a b => hlift _ _ _ (h.1 a b), fun a b => hlift _ _ _ (h.2 a b)⟩

/-- Claim C8: during artifact transfer a zero-length file is never sent, and
every transferred file obeys its class bound (images at most 10MB, other
documents at most 50MB) — so an oversize file is never transferred — while
an oversize file whose path was reached produces the user-visible
too-large notice message instead of being silently dropped. -/
theorem zero_and_oversize_files_not_sent
    (fs : FileSys) (wsRaw : String) (written : List String) :
    (∀ a p, a ∈ sendWrittenFiles fs wsRaw written → a.target = some p →
      ∃ s, fs.size? p = some s ∧ 0 < s ∧
        (isImagePath p = true → s ≤ 10 * 1024 * 1024) ∧
        (isImagePath p = false → s ≤ 50 * 1024 * 1024)) ∧
    (∀ raw s, raw ∈ written →
      fs.size? (canonicalize (resolvePath wsRaw) raw) = some s →
      (isImagePath (canonicalize (resolvePath wsRaw) raw) = true → s > 10 * 1024 * 1024 →
        SendAction.message ("Image too large for Telegram (>10MB): " ++
            pathName (canonicalize (resolvePath wsRaw) raw))
          ∈ sendWrittenFiles fs wsRaw written) ∧
      (isImagePath (canonicalize (resolvePath wsRaw) raw) = false → s > 50 * 1024 * 1024 →
        SendAction.message ("File too large for Telegram (>50MB): " ++
            pathName (canonicalize (resolvePath wsRaw) raw))
          ∈ sendWrittenFiles fs wsRaw written)) := by
  constructor
  · intro a p ha hp
    exact sendFilesLoop_size_bounds fs (resolvePath wsRaw) written [] a p ha hp
  · intro raw s hmem hsz
    exact sendFilesLoop_oversize_notice fs (resolvePath wsRaw) written [] raw s hmem
      (by simp) hsz

/-- Witness for C8: an 11MB image is not transferred but produces the
too-large notice, and the sole transferred file of the run is a 5-byte
image within its bound. -/
theorem zero_and_oversize_files_not_sent_witness :
    (SendAction.message ("Image too large for Telegram (>10MB): " ++ pathName "/w/big.png")
      ∈ sendWrittenFiles [("/w/big.png", 11534336), ("/w/ok.png", 5)] "/w" ["big.png", "ok.png"]) ∧
    (∃ s, FileSys.size? [("/w/big.png", 11534336), ("/w/ok.png", 5)] "/w/ok.png" = some s ∧
      0 < s ∧ (isImagePath "/w/ok.png" = true → s ≤ 10 * 1024 * 1024) ∧
      (isImagePath "/w/ok.png" = false → s ≤ 50 * 1024 * 1024)) := by
  constructor
  · have h := (zero_and_oversize_files_not_sent
      [("/w/big.png", 11534336), ("/w/ok.png", 5)] "/w" ["big.png", "ok.png"]).2
      "big.png" 11534336 (by decide) (by decide)
    have h2 := h.1 (by decide) (by decide)
    exact (by rw [show canonicalize (resolvePath "/w") "big.png" = "/w/big.png" from by decide] at h2; exact h2)
  · have h := (zero_and_oversize_files_not_sent
      [("/w/big.png", 11534336), ("/w/ok.png", 5)] "/w" ["big.png", "ok.png"]).1
      (SendAction.photo "/w/ok.png" "ok.png") "/w/ok.png" (by decide) (by decide)
    exact h
